import Mathlib

/-!
# Verification of the satmod tiling library against its specification

This file gives a shallow embedding, over exact rationals, of the parts of the
satmod raster-tiling library that the specification's claims speak about:

* `src/src/coordinate.rs` — the `Geocode` enum with `encode`, `get_intervals`,
  and the grid-window enumeration `get_windows`;
* `src/src/transform.rs` — the `split` growing-loop and output framing, and
  `merge`'s union bounding box;
* `src/src/serialize.rs` — the binary big-endian serialization `write`.

Modelling conventions:

* IEEE-754 `f64` arithmetic is modelled by exact rational arithmetic (`ℚ`).
  At every concrete input used below the double computations of the source are
  exact, and the algorithmic claims under scrutiny are about the arithmetic
  structure, not about rounding.
* In the serializer, an `f64`/`f32` value is represented by its bit pattern
  (a natural number), since `serialize.rs` only ever copies the raw big-endian
  bytes of such values.
* Machine-integer casts that can overflow are made explicit: `2_u32.pow` is
  modelled with `% 2^32`, the `as i32` saturating float-to-int casts in
  `get_windows` with an explicit clamp to `[-2^31, 2^31 - 1]`, and the `i8`
  bit counter of `encode` by a natural number (the counter is only ever used
  modulo 2, which wrapping preserves).
* Fallible operations return `Except` or `Option`; the external GDAL
  coordinate transformers of `split` are taken as function parameters.
-/

attribute [local semireducible] Rat.add Rat.mul Rat.sub Rat.inv Rat.ofScientific

instance {ε α : Type} [DecidableEq ε] [DecidableEq α] : DecidableEq (Except ε α) := fun a b =>
  match a, b with
  | .ok x, .ok y => decidable_of_iff (x = y) (by simp)
  | .error x, .error y => decidable_of_iff (x = y) (by simp)
  | .ok _, .error _ => isFalse (by simp)
  | .error _, .ok _ => isFalse (by simp)

namespace Satmod

/-- The base-32 geohash alphabet, from `GEOHASH32_CHARS` in
src/src/coordinate.rs lines 10-13. -/
def GEOHASH32_CHARS : List Char :=
  ['0', '1', '2', '3', '4', '5', '6', '7', '8', '9', 'b', 'c', 'd', 'e',
   'f', 'g', 'h', 'j', 'k', 'm', 'n', 'p', 'q', 'r', 's', 't', 'u', 'v',
   'w', 'x', 'y', 'z']

/-- The quadtile alphabet, from `QUADTILE_CHARS` in src/src/coordinate.rs
line 17. -/
def QUADTILE_CHARS : List Char := ['2', '0', '3', '1']

/-- A rectangle in a geocode's native coordinate system, the mutable
`(min_x, max_x, min_y, max_y)` state of `Geocode::encode`. -/
structure GBounds where
  min_x : ℚ
  max_x : ℚ
  min_y : ℚ
  max_y : ℚ
  deriving DecidableEq, Repr

/-- Native bounds of the geohash geocode, `GEOHASH_BOUNDS` in
src/src/coordinate.rs line 9. -/
def GEOHASH_BOUNDS : GBounds := ⟨-180, 180, -90, 90⟩

/-- Native bounds of the quadtile geocode, `QUADTILE_BOUNDS` in
src/src/coordinate.rs lines 15-16; the decimal literal denotes the exact
rational 20037508342789248 / 10^9, which the `f64` literal also denotes
exactly enough for every comparison made with it below. -/
def QUADTILE_BOUNDS : GBounds :=
  ⟨-20037508.342789248, 20037508.342789248, -20037508.342789248, 20037508.342789248⟩

/-- The `Geocode` enum of src/src/coordinate.rs lines 19-23. -/
inductive Geocode where
  | Geohash : Geocode
  | QuadTile : Geocode
  deriving DecidableEq, Repr

/-- The native bounds selected by the `match self` of `Geocode::encode`
(src/src/coordinate.rs lines 34-40). -/
def Geocode.gbounds : Geocode → GBounds
  | .Geohash => GEOHASH_BOUNDS
  | .QuadTile => QUADTILE_BOUNDS

/-- Bits consumed per output character: 5 for geohash, 2 for quadtile
(src/src/coordinate.rs lines 34-40). -/
def Geocode.char_bits : Geocode → ℕ
  | .Geohash => 5
  | .QuadTile => 2

/-- The code alphabet selected by `Geocode::encode`
(src/src/coordinate.rs lines 34-40). -/
def Geocode.codes : Geocode → List Char
  | .Geohash => GEOHASH32_CHARS
  | .QuadTile => QUADTILE_CHARS

/-- One bisection step of the bounds state: with `parity = false` an x-split
(`bits_total % 2 == 0`), with `parity = true` a y-split; `bit` is the emitted
bit. Mirrors the two branches of the inner loop of `Geocode::encode`,
src/src/coordinate.rs lines 55-75. -/
def applySplit (parity : Bool) (bit : Bool) (b : GBounds) : GBounds :=
  if parity then
    let mid := (b.max_y + b.min_y) / 2
    if bit then { b with min_y := mid } else { b with max_y := mid }
  else
    let mid := (b.max_x + b.min_x) / 2
    if bit then { b with min_x := mid } else { b with max_x := mid }

/-- The bit emitted by one bisection step: 1 exactly when the coordinate lies
strictly above the midpoint (src/src/coordinate.rs lines 57-58 and 67-68). -/
def splitBit (x y : ℚ) (parity : Bool) (b : GBounds) : Bool :=
  if parity then decide (y > (b.max_y + b.min_y) / 2)
  else decide (x > (b.max_x + b.min_x) / 2)

/-- The inner `for _ in 0..char_bits` loop of `Geocode::encode`
(src/src/coordinate.rs lines 54-77): consumes `k` bits starting at bit
counter `t` with accumulated `hash_value` `h`, returning the final
`hash_value` and bounds. The `i8` counter `bits_total` is modelled by a
natural number; it is only ever inspected modulo 2. -/
def encodeBits (x y : ℚ) : ℕ → ℕ → ℕ → GBounds → ℕ × GBounds
  | 0, _, h, b => (h, b)
  | k + 1, t, h, b =>
      let parity := decide (t % 2 = 1)
      let bit := splitBit x y parity b
      encodeBits x y k (t + 1) (2 * h + (if bit then 1 else 0)) (applySplit parity bit b)

/-- The outer `while out.len() < precision` loop of `Geocode::encode`
(src/src/coordinate.rs lines 53-83), returning the list of per-character
alphabet indices (each one `hash_value` at the lookup on line 80) together
with the final bounds state. -/
def encodeIndices (x y : ℚ) (cb : ℕ) : ℕ → ℕ → GBounds → List ℕ × GBounds
  | 0, _, b => ([], b)
  | p + 1, t, b =>
      let r := encodeBits x y cb t 0 b
      let rest := encodeIndices x y cb p (t + cb) r.2
      (r.1 :: rest.1, rest.2)

/-- The `Geocode::encode` function of src/src/coordinate.rs lines 31-86.
Out-of-range coordinates (line 43) produce an error; otherwise each
character is looked up in the alphabet at the accumulated index. The `codes[hash_value]`
indexing of line 80 is modelled with the total `List.getD` (Rust would panic
out of bounds; claim C10 shows the index is always in bounds). -/
def Geocode.encode (g : Geocode) (x y : ℚ) (precision : ℕ) : Except String String :=
  let b0 := g.gbounds
  if x < b0.min_x ∨ x > b0.max_x ∨ y < b0.min_y ∨ y > b0.max_y then
    .error "coordinate is outside of geocode range"
  else
    .ok (String.mk (((encodeIndices x y g.char_bits precision 0 b0).1).map
      (fun h => g.codes.getD h ' ')))

/-- Position of the first occurrence of a character in an alphabet. -/
def charIndex (c : Char) : List Char → Option ℕ
  | [] => none
  | c' :: cs => if c' = c then some 0 else (charIndex c cs).map (· + 1)

/-- Modelled from the spec: replay of the `k` bits of one character's index
during decoding, most significant bit first, splitting alternately exactly as
the encoder does. `Geocode::decode` is declared but `unimplemented!()` in
src/src/coordinate.rs lines 26-29; spec section 4.1 defines it as the inverse
of `encode`: for each character, split alternately until all bits consumed. -/
def decodeBitsAux (h : ℕ) : ℕ → ℕ → GBounds → GBounds
  | 0, _, b => b
  | k + 1, t, b =>
      let parity := decide (t % 2 = 1)
      decodeBitsAux h k (t + 1) (applySplit parity (h.testBit k) b)

/-- Modelled from the spec: per-character decoding loop; each character is
mapped back to its alphabet index, whose bits then drive the bisection. -/
def decodeChars (cb : ℕ) (codes : List Char) : List Char → ℕ → GBounds → Option GBounds
  | [], _, b => some b
  | c :: cs, t, b =>
      match charIndex c codes with
      | some h => decodeChars cb codes cs (t + cb) (decodeBitsAux h cb t b)
      | none => none

/-- Modelled from the spec: `decode(code) → (min_x, max_x, min_y, max_y)`,
the inverse of `encode` (spec section 4.1). The implementation in
src/src/coordinate.rs lines 26-29 is an unimplemented stub. -/
def Geocode.decode (g : Geocode) (s : String) : Except String (ℚ × ℚ × ℚ × ℚ) :=
  match decodeChars g.char_bits g.codes s.data 0 g.gbounds with
  | some b => .ok (b.min_x, b.max_x, b.min_y, b.max_y)
  | none => .error "invalid geocode character"

/-- Membership of a point in a closed bounds rectangle. -/
def InBox (x y : ℚ) (b : GBounds) : Prop :=
  b.min_x ≤ x ∧ x ≤ b.max_x ∧ b.min_y ≤ y ∧ y ≤ b.max_y

instance (x y : ℚ) (b : GBounds) : Decidable (InBox x y b) := by
  unfold InBox; infer_instance

end Satmod

namespace Satmod

/-- The `Geocode::get_intervals` function of src/src/coordinate.rs lines
95-120. The bit counts `2*p + (p/2 rounded)` are exact in `f64` for any
realistic precision; `2_u32.pow` wraps modulo `2^32` (release overflow
semantics), modelled by the explicit `% 2^32`. -/
def Geocode.get_intervals (g : Geocode) (p : ℕ) : ℚ × ℚ :=
  match g with
  | .Geohash =>
      let lat_bits := 2 * p + p / 2
      let long_bits := 2 * p + (p + 1) / 2
      let lat_delta := (GEOHASH_BOUNDS.max_y - GEOHASH_BOUNDS.min_y) /
        ((2 ^ lat_bits % 2 ^ 32 : ℕ) : ℚ)
      let long_delta := (GEOHASH_BOUNDS.max_x - GEOHASH_BOUNDS.min_x) /
        ((2 ^ long_bits % 2 ^ 32 : ℕ) : ℚ)
      (long_delta, lat_delta)
  | .QuadTile =>
      let delta := (QUADTILE_BOUNDS.max_x - QUADTILE_BOUNDS.min_x) /
        ((2 ^ p % 2 ^ 32 : ℕ) : ℚ)
      (delta, delta)

/-- The `Geocode::get_epsg_code` function of src/src/coordinate.rs lines
88-93. -/
def Geocode.get_epsg_code : Geocode → ℕ
  | .Geohash => 4326
  | .QuadTile => 3857

/-- Saturating cast of an integer to `i32`, the semantics of Rust's
float-to-int `as i32` applied after `floor`/`ceil` in `get_windows`. -/
def i32clamp (n : ℤ) : ℤ := max (-(2 ^ 31)) (min (2 ^ 31 - 1) n)

/-- Consecutive integers from `a` (inclusive) to `b` (exclusive), the Rust
range `a..b` over `i32` indices. -/
def rangeZ (a b : ℤ) : List ℤ :=
  (List.range (b - a).toNat).map (fun (n : ℕ) => a + (n : ℤ))

/-- The `get_windows` function of src/src/coordinate.rs lines 160-191:
floor/ceil the bounds over the intervals to `i32` indices (with the
saturating `as i32` casts made explicit) and enumerate one window per index
pair, x-major. -/
def get_windows (min_x max_x min_y max_y x_interval y_interval : ℚ) :
    List (ℚ × ℚ × ℚ × ℚ) :=
  let min_x_index := i32clamp ⌊min_x / x_interval⌋
  let max_x_index := i32clamp ⌈max_x / x_interval⌉
  let min_y_index := i32clamp ⌊min_y / y_interval⌋
  let max_y_index := i32clamp ⌈max_y / y_interval⌉
  ((rangeZ min_x_index max_x_index).map (fun (x_index : ℤ) =>
    (rangeZ min_y_index max_y_index).map (fun (y_index : ℤ) =>
      ((x_index : ℚ) * x_interval, ((x_index : ℚ) + 1) * x_interval,
       (y_index : ℚ) * y_interval, ((y_index : ℚ) + 1) * y_interval)))).flatten

end Satmod

namespace Satmod

/-- A six-coefficient affine geo-transform `(a, b, c, d, e, f)`, the
`[f64; 6]` array of GDAL with `transform[0] = a`, ..., `transform[5] = f`. -/
structure GeoT where
  a : ℚ
  b : ℚ
  c : ℚ
  d : ℚ
  e : ℚ
  f : ℚ
  deriving DecidableEq, Repr

/-- The geometric attributes of a GDAL dataset used by `transform.rs`:
raster size, geo-transform and projection. Raster contents are not modelled;
the claims below concern only the output framing. -/
structure DatasetG where
  width : ℤ
  height : ℤ
  transform : GeoT
  projection : String
  deriving DecidableEq, Repr

/-- Pixel-to-projected-coordinate mapping of a geo-transform, the affine part
of `transform_pixels` (src/src/coordinate.rs lines 208-216). -/
def affinePix (t : GeoT) (px py : ℤ) : ℚ × ℚ :=
  (t.a + (px : ℚ) * t.b + (py : ℚ) * t.c, t.d + (px : ℚ) * t.e + (py : ℚ) * t.f)

/-- The integer pixel rectangle grown by `split`'s loop,
`(bound_min_px, bound_max_px, bound_min_py, bound_max_py)` of
src/src/transform.rs lines 121-124. -/
structure PixelRect where
  min_px : ℤ
  max_px : ℤ
  min_py : ℤ
  max_py : ℤ
  deriving DecidableEq, Repr

/-- A rectangle in the target CRS: either the window passed to `split` or the
conservative envelope computed inside its loop. -/
structure CBounds where
  min_cx : ℚ
  max_cx : ℚ
  min_cy : ℚ
  max_cy : ℚ
  deriving DecidableEq, Repr

/-- The conservative reprojected envelope of a pixel rectangle by the
inner-corner rule of src/src/transform.rs lines 133-146: transform the four
corner pixels with `f` (pixel to target CRS) and take
`bound_min_cx = max(x_UL, x_LL)`, `bound_max_cx = min(x_UR, x_LR)`,
`bound_min_cy = max(y_LL, y_LR)`, `bound_max_cy = min(y_UL, y_UR)` where
UL = (min_px, min_py), UR = (max_px, min_py), LL = (min_px, max_py),
LR = (max_px, max_py). -/
def conservEnv (f : ℤ → ℤ → ℚ × ℚ) (r : PixelRect) : CBounds :=
  let p0 := f r.min_px r.min_py
  let p1 := f r.max_px r.min_py
  let p2 := f r.min_px r.max_py
  let p3 := f r.max_px r.max_py
  ⟨max p0.1 p2.1, min p1.1 p3.1, max p2.2 p3.2, min p0.2 p1.2⟩

/-- Whether the conservative envelope already contains the window, the
termination test of src/src/transform.rs lines 149-152. -/
def envContains (env w : CBounds) : Prop :=
  env.min_cx ≤ w.min_cx ∧ env.max_cx ≥ w.max_cx ∧
  env.min_cy ≤ w.min_cy ∧ env.max_cy ≥ w.max_cy

instance (env w : CBounds) : Decidable (envContains env w) := by
  unfold envContains; infer_instance

/-- One widening step of `split`'s loop (src/src/transform.rs lines 159-180):
compute the four shortfalls, pick the index of the strictly largest (first
one wins on ties) and move the corresponding pixel bound by one. -/
def growStep (w : CBounds) (env : CBounds) (r : PixelRect) : PixelRect :=
  let d0 := env.min_cx - w.min_cx
  let d1 := w.max_cx - env.max_cx
  let d2 := env.min_cy - w.min_cy
  let d3 := w.max_cy - env.max_cy
  let iv1 : ℕ × ℚ := if d1 > d0 then (1, d1) else (0, d0)
  let iv2 : ℕ × ℚ := if d2 > iv1.2 then (2, d2) else iv1
  let iv3 : ℕ × ℚ := if d3 > iv2.2 then (3, d3) else iv2
  match iv3.1 with
  | 0 => { r with min_px := r.min_px - 1 }
  | 1 => { r with max_px := r.max_px + 1 }
  | 2 => { r with max_py := r.max_py + 1 }
  | _ => { r with min_py := r.min_py - 1 }

/-- The growing `loop` of `split` (src/src/transform.rs lines 131-181),
with an explicit fuel parameter: `none` models non-termination within the
given fuel, `some r` the state at the `break`. -/
def splitLoop (f : ℤ → ℤ → ℚ × ℚ) (w : CBounds) : ℕ → PixelRect → Option PixelRect
  | 0, _ => none
  | fuel + 1, r =>
      let env := conservEnv f r
      if envContains env w then some r
      else splitLoop f w fuel (growStep w env r)

/-- Truncation of a rational toward zero, the semantics of Rust's `as isize`
cast applied to a finite float. -/
def ratTrunc (q : ℚ) : ℤ := if 0 ≤ q then ⌊q⌋ else ⌈q⌉

/-- The pixel-to-target-CRS transform used inside `split`'s loop: the
dataset's affine geo-transform followed by the forward CRS transformer,
exactly as `transform_pixels` composes them (src/src/transform.rs lines
140-141). -/
def pixelToTarget (t : GeoT) (fw : ℚ × ℚ → ℚ × ℚ) : ℤ → ℤ → ℚ × ℚ :=
  fun px py => fw (affinePix t px py)

/-- The initial pixel rectangle of `split`'s loop (src/src/transform.rs
lines 110-124): the window's center is pulled back through the reverse CRS
transformer, converted to pixel space by inverting the affine transform
under the assumption that its rotation terms vanish, and truncated
(`as isize`). -/
def splitCenterRect (t : GeoT) (rv : ℚ × ℚ → ℚ × ℚ) (w : CBounds) : PixelRect :=
  let mid_cx := (w.min_cx + w.max_cx) / 2
  let mid_cy := (w.min_cy + w.max_cy) / 2
  let center := rv (mid_cx, mid_cy)
  let center_px := (center.1 - t.a) / t.b
  let center_py := (center.2 - t.d) / t.f
  ⟨ratTrunc center_px, ratTrunc center_px, ratTrunc center_py, ratTrunc center_py⟩

/-- The `split` function of src/src/transform.rs lines 97-252. The GDAL
CRS-to-CRS transformers are the parameters `fw` (source CRS to target CRS)
and `rv` (target to source); the pixel-to-target transform used in the loop
is `fw` after the dataset's affine geo-transform, exactly as
`transform_pixels` composes them. The outer `none` models running out of
fuel in the growing loop; `some none` is the source's `Ok(None)` (window
entirely outside the image, lines 193-196). The destination dataset is
created by `init_dataset` (re-exported by the crate but absent from src/;
spec section 4.5 specifies it creates a dataset of the given width, height
and band count), its geo-transform and projection are then set on lines
233-239. Raster copying (lines 242-249) is not modelled. -/
def split (fuel : ℕ) (ds : DatasetG) (fw rv : ℚ × ℚ → ℚ × ℚ) (w : CBounds) :
    Option (Option DatasetG) :=
  let t := ds.transform
  match splitLoop (pixelToTarget t fw) w fuel (splitCenterRect t rv w) with
  | none => none
  | some r =>
      if r.max_px < 0 ∨ r.min_px ≥ ds.width ∨ r.max_py < 0 ∨ r.min_py ≥ ds.height then
        some none
      else
        some (some
          { width := r.max_px - r.min_px,
            height := r.max_py - r.min_py,
            transform :=
              { t with
                a := t.a + (r.min_px : ℚ) * t.b + (r.min_py : ℚ) * t.c,
                d := t.d + (r.min_px : ℚ) * t.e + (r.min_py : ℚ) * t.f },
            projection := ds.projection })

/-- The per-input envelope used by `merge` (src/src/transform.rs lines
23-28): `image_min_cx = a`, `image_max_cx = a + W*b + H*c`,
`image_min_cy = d + W*e + H*f`, `image_max_cy = d`. -/
def imageEnv (ds : DatasetG) : CBounds :=
  let t := ds.transform
  let w : ℚ := (ds.width : ℚ)
  let h : ℚ := (ds.height : ℚ)
  ⟨t.a, t.a + w * t.b + h * t.c, t.d + w * t.e + h * t.f, t.d⟩

/-- The largest finite `f64`, the value of `f64::MAX` used to seed `merge`'s
running minima and maxima (src/src/transform.rs lines 11-14);
`f64::MIN = -f64::MAX`. -/
def F64_MAX : ℚ := (2 ^ 53 - 1) * 2 ^ 971

/-- One iteration of `merge`'s bounding loop (src/src/transform.rs lines
30-33): fold the current dataset's envelope into the running minima and
maxima. -/
def mergeStep (acc : CBounds) (d : DatasetG) : CBounds :=
  let e := imageEnv d
  ⟨min acc.min_cx e.min_cx, max acc.max_cx e.max_cx,
   min acc.min_cy e.min_cy, max acc.max_cy e.max_cy⟩

/-- The accumulation loop of `merge` over all input envelopes
(src/src/transform.rs lines 16-34), seeded with
`(f64::MAX, f64::MIN, f64::MAX, f64::MIN)`. -/
def mergeAcc (ds : List DatasetG) : CBounds :=
  ds.foldl mergeStep ⟨F64_MAX, -F64_MAX, F64_MAX, -F64_MAX⟩

/-- The `merge` function of src/src/transform.rs lines 6-95, for the
attributes the claims concern: the output dimensions (lines 40-49) and the
output geo-transform and projection (lines 64-70), which are `datasets[0]`'s
with `a` replaced by the union's `min_cx` and `d` by the union's `max_cy`.
Indexing `datasets[0]` panics on an empty slice, modelled by `none`. The
destination is created by `init_dataset` (absent from src/, spec section
4.5) and raster copying (lines 73-92) is not modelled. -/
def merge (ds : List DatasetG) : Option DatasetG :=
  match ds with
  | [] => none
  | d0 :: _ =>
      let bb := mergeAcc ds
      let t := d0.transform
      let min_px := (bb.min_cx - t.a) / t.b
      let max_px := (bb.max_cx - t.a) / t.b
      let min_py := (bb.min_cy - t.d) / t.f * (-1)
      let max_py := (bb.max_cy - t.d) / t.f * (-1)
      some
        { width := ratTrunc (max_px - min_px),
          height := ratTrunc (max_py - min_py),
          transform := { t with a := bb.min_cx, d := bb.max_cy },
          projection := d0.projection }

end Satmod

namespace Satmod

/-- GDAL pixel-type tag for unsigned 8-bit pixels (`GDALDataType::GDT_Byte`). -/
def GDT_Byte : ℕ := 1

/-- GDAL pixel-type tag for unsigned 16-bit pixels (`GDT_UInt16`). -/
def GDT_UInt16 : ℕ := 2

/-- GDAL pixel-type tag for signed 16-bit pixels (`GDT_Int16`). -/
def GDT_Int16 : ℕ := 3

/-- GDAL pixel-type tag for 32-bit float pixels (`GDT_Float32`). -/
def GDT_Float32 : ℕ := 6

/-- One raster band as `serialize.rs` sees it: its GDAL type tag, the
optional no-data value (an `f64`, kept as its 64-bit pattern) and the pixel
values in row-major order, each kept as its bit pattern at the band's
width. -/
structure SBand where
  band_type : ℕ
  no_data_value : Option ℕ
  data : List ℕ
  deriving DecidableEq, Repr

/-- A dataset as `serialize::write` reads it: raster size, the six `f64`
geo-transform coefficients as bit patterns, the projection's UTF-8 bytes and
the bands. -/
structure SDataset where
  width : ℕ
  height : ℕ
  transform : List ℕ
  projection : List ℕ
  bands : List SBand
  deriving DecidableEq, Repr

/-- Big-endian bytes of a `u16` (`byteorder::BigEndian`). -/
def u16be (n : ℕ) : List ℕ := [n / 2 ^ 8 % 256, n % 256]

/-- Big-endian bytes of a `u32`. -/
def u32be (n : ℕ) : List ℕ :=
  [n / 2 ^ 24 % 256, n / 2 ^ 16 % 256, n / 2 ^ 8 % 256, n % 256]

/-- Big-endian bytes of a `u64`, used for the bit pattern of an `f64`. -/
def u64be (n : ℕ) : List ℕ :=
  [n / 2 ^ 56 % 256, n / 2 ^ 48 % 256, n / 2 ^ 40 % 256, n / 2 ^ 32 % 256,
   n / 2 ^ 24 % 256, n / 2 ^ 16 % 256, n / 2 ^ 8 % 256, n % 256]

/-- The `write_raster` function of src/src/serialize.rs lines 155-191: the
band's `u32` type tag followed by every pixel in big-endian at the type's
width; the `unimplemented!()` arm for any other tag is modelled by `none`. -/
def write_raster (b : SBand) : Option (List ℕ) :=
  if b.band_type = GDT_Byte then
    some (u32be b.band_type ++ b.data.map (· % 256))
  else if b.band_type = GDT_Int16 then
    some (u32be b.band_type ++ (b.data.map u16be).flatten)
  else if b.band_type = GDT_UInt16 then
    some (u32be b.band_type ++ (b.data.map u16be).flatten)
  else if b.band_type = GDT_Float32 then
    some (u32be b.band_type ++ (b.data.map u32be).flatten)
  else none

/-- The `write` function of src/src/serialize.rs lines 117-153, as the byte
stream it appends to the writer: `u32` width and height (`raster_size` cast
`as u32`), the six geo-transform doubles, the `u32` projection byte length
and the projection bytes, band 1's `u32` type tag (`rasterband(1)` fails on
a band-less dataset, hence `none`), the no-data flag and optional value, the
`u8` band count (`raster_count() as u8`), then each band via
`write_raster`. -/
def write (d : SDataset) : Option (List ℕ) :=
  match d.bands with
  | [] => none
  | b1 :: _ =>
      let header :=
        u32be (d.width % 2 ^ 32) ++ u32be (d.height % 2 ^ 32) ++
        (d.transform.map u64be).flatten ++
        u32be (d.projection.length % 2 ^ 32) ++ d.projection ++
        u32be b1.band_type ++
        (match b1.no_data_value with
         | some v => 1 :: u64be v
         | none => [0]) ++
        [d.bands.length % 256]
      d.bands.foldlM (fun acc b => (write_raster b).map (acc ++ ·)) header

/-- The natural byte width of a supported GDAL pixel type, as the spec
states it: 1 byte for U8, 2 bytes for I16/U16, 4 for F32. -/
def typeWidth (tag : ℕ) : ℕ :=
  if tag = GDT_Byte then 1
  else if tag = GDT_Int16 ∨ tag = GDT_UInt16 then 2
  else if tag = GDT_Float32 then 4
  else 0

/-- Big-endian byte string of a value at a given byte width, most
significant byte first. -/
def beBytes (w n : ℕ) : List ℕ :=
  (List.range w).map (fun i => n / 256 ^ (w - 1 - i) % 256)

/-- Spec-side description of one band's pixel payload: every pixel
serialized in its natural big-endian width. -/
def pixelBytes (b : SBand) : List ℕ :=
  (b.data.map (beBytes (typeWidth b.band_type))).flatten

/-- The four supported pixel-type tags. -/
def supportedTag (tag : ℕ) : Prop :=
  tag = GDT_Byte ∨ tag = GDT_Int16 ∨ tag = GDT_UInt16 ∨ tag = GDT_Float32

instance (tag : ℕ) : Decidable (supportedTag tag) := by
  unfold supportedTag; infer_instance

end Satmod

namespace Satmod

/-- Shifting the accumulator of the inner bit loop: running it with
accumulated value `h` yields `h * 2^k` plus the run from accumulator 0, and
the bounds state does not depend on the accumulator. -/
lemma encodeBits_acc (x y : ℚ) :
    ∀ (k t h : ℕ) (b : GBounds),
      encodeBits x y k t h b =
        (h * 2 ^ k + (encodeBits x y k t 0 b).1, (encodeBits x y k t 0 b).2) := by
  intro k
  induction k with
  | zero => intro t h b; simp [encodeBits]
  | succ k ih =>
      intro t h b
      simp only [encodeBits]
      rw [ih (t + 1) (2 * h + _), ih (t + 1) (2 * 0 + _)]
      refine Prod.ext ?_ rfl
      simp only []
      ring

/-- The index accumulated for one character is below `2 ^ char_bits`. -/
lemma encodeBits_fst_lt (x y : ℚ) :
    ∀ (k t : ℕ) (b : GBounds), (encodeBits x y k t 0 b).1 < 2 ^ k := by
  intro k
  induction k with
  | zero => intro t b; simp [encodeBits]
  | succ k ih =>
      intro t b
      simp only [encodeBits]
      rw [encodeBits_acc]
      have h := ih (t + 1)
        (applySplit (decide (t % 2 = 1)) (splitBit x y (decide (t % 2 = 1)) b) b)
      rw [pow_succ]
      have h1 : (2 * 0 + if splitBit x y (decide (t % 2 = 1)) b then 1 else 0) * 2 ^ k
          ≤ 2 ^ k := by
        have h2 : (2 * 0 + if splitBit x y (decide (t % 2 = 1)) b then 1 else 0) ≤ 1 := by
          split <;> omega
        calc (2 * 0 + if splitBit x y (decide (t % 2 = 1)) b then 1 else 0) * 2 ^ k
            ≤ 1 * 2 ^ k := Nat.mul_le_mul_right _ h2
          _ = 2 ^ k := one_mul _
      omega

/-- The outer loop emits exactly `precision` characters. -/
lemma encodeIndices_length (x y : ℚ) (cb : ℕ) :
    ∀ (p t : ℕ) (b : GBounds), ((encodeIndices x y cb p t b).1).length = p := by
  intro p
  induction p with
  | zero => intro t b; simp [encodeIndices]
  | succ p ih => intro t b; simp [encodeIndices, ih]

/-- Every emitted index is below `2 ^ char_bits`. -/
lemma encodeIndices_mem_lt (x y : ℚ) (cb : ℕ) :
    ∀ (p t : ℕ) (b : GBounds) (h : ℕ),
      h ∈ (encodeIndices x y cb p t b).1 → h < 2 ^ cb := by
  intro p
  induction p with
  | zero => intro t b h hm; simp [encodeIndices] at hm
  | succ p ih =>
      intro t b h hm
      simp only [encodeIndices, List.mem_cons] at hm
      rcases hm with rfl | hm
      · exact encodeBits_fst_lt x y cb t b
      · exact ih _ _ _ hm

/-- C3. For every geocode variant, precision p in [1,12] and coordinates
(x, y): encode returns an error exactly when (x, y) lies outside the
geocode's native bounds, and otherwise returns a string of length exactly
p. -/
theorem C3_encode_error_iff_out_of_range (g : Geocode) (p : ℕ)
    (hp1 : 1 ≤ p) (hp2 : p ≤ 12) (x y : ℚ) :
    ((∃ msg, g.encode x y p = .error msg) ↔
      (x < g.gbounds.min_x ∨ x > g.gbounds.max_x ∨
       y < g.gbounds.min_y ∨ y > g.gbounds.max_y)) ∧
    (¬(x < g.gbounds.min_x ∨ x > g.gbounds.max_x ∨
       y < g.gbounds.min_y ∨ y > g.gbounds.max_y) →
      ∃ s, g.encode x y p = .ok s ∧ s.length = p) := by
  by_cases hout : x < g.gbounds.min_x ∨ x > g.gbounds.max_x ∨
      y < g.gbounds.min_y ∨ y > g.gbounds.max_y
  · refine ⟨⟨fun _ => hout, fun _ => ?_⟩, fun hc => absurd hout hc⟩
    exact ⟨"coordinate is outside of geocode range", by simp [Geocode.encode, hout]⟩
  · constructor
    · constructor
      · rintro ⟨msg, hmsg⟩
        simp [Geocode.encode, hout] at hmsg
      · intro hc; exact absurd hc hout
    · intro _
      refine ⟨String.mk (((encodeIndices x y g.char_bits p 0 g.gbounds).1).map
          (fun h => g.codes.getD h ' ')), ?_, ?_⟩
      · simp [Geocode.encode, hout]
      · simpa [String.length] using encodeIndices_length x y g.char_bits p 0 g.gbounds

/-- C3 witness: geohash at the Hamburg test point, precision 4. -/
theorem C3_witness :
    (1 ≤ 4 ∧ 4 ≤ 12 ∧
      ¬((10.001389 : ℚ) < Geocode.Geohash.gbounds.min_x ∨
        (10.001389 : ℚ) > Geocode.Geohash.gbounds.max_x ∨
        (53.565278 : ℚ) < Geocode.Geohash.gbounds.min_y ∨
        (53.565278 : ℚ) > Geocode.Geohash.gbounds.max_y)) ∧
    (∃ s, Geocode.Geohash.encode 10.001389 53.565278 4 = .ok s ∧ s.length = 4) :=
  ⟨⟨by norm_num, by norm_num, by decide⟩,
    (C3_encode_error_iff_out_of_range Geocode.Geohash 4 (by norm_num) (by norm_num)
      10.001389 53.565278).2 (by decide)⟩

/-- C10. For every geocode variant, precision and in-range point, the
alphabet index accumulated for each emitted character is strictly below
`2 ^ char_bits`, which equals the alphabet length, so the `codes[hash_value]`
lookup of src/src/coordinate.rs line 80 is always in bounds. -/
theorem C10_alphabet_lookup_in_bounds (g : Geocode) (p : ℕ) (x y : ℚ)
    (hin : InBox x y g.gbounds) :
    (g.codes).length = 2 ^ g.char_bits ∧
    ∀ h ∈ (encodeIndices x y g.char_bits p 0 g.gbounds).1,
      h < 2 ^ g.char_bits ∧ h < (g.codes).length := by
  have hlen : (g.codes).length = 2 ^ g.char_bits := by
    cases g <;> decide
  refine ⟨hlen, fun h hm => ?_⟩
  have := encodeIndices_mem_lt x y g.char_bits p 0 g.gbounds h hm
  exact ⟨this, hlen ▸ this⟩

/-- C10 witness: quadtile at the Appleton Web-Mercator test point. -/
theorem C10_witness :
    InBox (-9840642.99) 5506802.68 Geocode.QuadTile.gbounds ∧
    ((Geocode.QuadTile.codes).length = 2 ^ Geocode.QuadTile.char_bits ∧
     ∀ h ∈ (encodeIndices (-9840642.99) 5506802.68 Geocode.QuadTile.char_bits 4 0
        Geocode.QuadTile.gbounds).1,
       h < 2 ^ Geocode.QuadTile.char_bits ∧ h < (Geocode.QuadTile.codes).length) :=
  ⟨by decide, C10_alphabet_lookup_in_bounds Geocode.QuadTile 4 (-9840642.99) 5506802.68
    (by decide)⟩

end Satmod

namespace Satmod

/-- C5. For every precision whose bit counts fit a `u32` exponent,
`get_intervals` returns exactly the spec's closed forms:
geohash `(360 / 2^(2p + ⌈p/2⌉), 180 / 2^(2p + ⌊p/2⌋))` and quadtile
`(40075016.685578496 / 2^p, 40075016.685578496 / 2^p)`; in particular
`Geohash.get_intervals 6 = (0.010986328125, 0.0054931640625)`. -/
theorem C5_get_intervals (p : ℕ) :
    (2 * p + (p + 1) / 2 ≤ 31 →
      Geocode.Geohash.get_intervals p =
        (360 / 2 ^ (2 * p + (p + 1) / 2), 180 / 2 ^ (2 * p + p / 2))) ∧
    (p ≤ 31 →
      Geocode.QuadTile.get_intervals p =
        ((40075016.685578496 : ℚ) / 2 ^ p, (40075016.685578496 : ℚ) / 2 ^ p)) ∧
    Geocode.Geohash.get_intervals 6 = (0.010986328125, 0.0054931640625) := by
  refine ⟨?_, ?_, by decide⟩
  · intro hbits
    have hlat : (2 : ℕ) ^ (2 * p + p / 2) % 2 ^ 32 = 2 ^ (2 * p + p / 2) :=
      Nat.mod_eq_of_lt (Nat.pow_lt_pow_right (by norm_num) (by omega))
    have hlong : (2 : ℕ) ^ (2 * p + (p + 1) / 2) % 2 ^ 32 = 2 ^ (2 * p + (p + 1) / 2) :=
      Nat.mod_eq_of_lt (Nat.pow_lt_pow_right (by norm_num) (by omega))
    simp only [Geocode.get_intervals, GEOHASH_BOUNDS, hlat, hlong]
    push_cast
    norm_num
  · intro hp
    have hq : (2 : ℕ) ^ p % 2 ^ 32 = 2 ^ p :=
      Nat.mod_eq_of_lt (Nat.pow_lt_pow_right (by norm_num) (by omega))
    simp only [Geocode.get_intervals, QUADTILE_BOUNDS, hq]
    push_cast
    norm_num

/-- C5 witness: precision 6 satisfies both bit-count side conditions. -/
theorem C5_witness :
    Geocode.Geohash.get_intervals 6 =
      (360 / 2 ^ (2 * 6 + (6 + 1) / 2), 180 / 2 ^ (2 * 6 + 6 / 2)) ∧
    Geocode.QuadTile.get_intervals 6 =
      ((40075016.685578496 : ℚ) / 2 ^ 6, (40075016.685578496 : ℚ) / 2 ^ 6) :=
  ⟨(C5_get_intervals 6).1 (by norm_num), (C5_get_intervals 6).2.1 (by norm_num)⟩

/-- C4 counterexample: at the claim's quadtile input (-9840642.99,
5506802.68) — the Appleton test point — `encode` at precision 4 does not
return "1202"; it returns "0302" (see the amended theorem). "1202" is the
precision-4 quadtile code of the Hamburg test point (1113349.53,
7088251.30), per the source's own test in src/src/coordinate.rs lines
346-364. -/
theorem C4_counterexample :
    Geocode.QuadTile.encode (-9840642.99) 5506802.68 4 ≠ .ok "1202" := by
  decide

/-- C4 as amended: the geohash vector holds as claimed; the quadtile
alphabet is ['2', '0', '3', '1'] indexed with the x-bit most significant;
but the quadtile encoding of (-9840642.99, 5506802.68) at precision 4 is
"0302", while "1202" is the encoding of (1113349.53, 7088251.30). -/
theorem C4_amended :
    Geocode.Geohash.encode 10.001389 53.565278 4 = .ok "u1x0" ∧
    Geocode.QuadTile.encode (-9840642.99) 5506802.68 4 = .ok "0302" ∧
    Geocode.QuadTile.encode 1113349.53 7088251.30 4 = .ok "1202" ∧
    Geocode.QuadTile.codes = ['2', '0', '3', '1'] :=
  ⟨by decide, by decide, by decide, rfl⟩

end Satmod

namespace Satmod

/-- When the growing loop breaks, the termination condition held for the
returned rectangle: its conservative envelope contains the window. -/
lemma splitLoop_sound (f : ℤ → ℤ → ℚ × ℚ) (w : CBounds) :
    ∀ (fuel : ℕ) (r r' : PixelRect),
      splitLoop f w fuel r = some r' → envContains (conservEnv f r') w := by
  intro fuel
  induction fuel with
  | zero => intro r r' hr; simp [splitLoop] at hr
  | succ n ih =>
      intro r r' hr
      simp only [splitLoop] at hr
      by_cases hc : envContains (conservEnv f r) w
      · rw [if_pos hc] at hr
        cases hr
        exact hc
      · rw [if_neg hc] at hr
        exact ih _ _ hr

/-- Unfolding of a successful `split` run: the loop broke at some rectangle
and the returned dataset is built from it. -/
lemma split_some (fuel : ℕ) (ds : DatasetG) (fw rv : ℚ × ℚ → ℚ × ℚ)
    (w : CBounds) (out : DatasetG)
    (hs : split fuel ds fw rv w = some (some out)) :
    ∃ r : PixelRect,
      splitLoop (pixelToTarget ds.transform fw) w fuel
        (splitCenterRect ds.transform rv w) = some r ∧
      out = { width := r.max_px - r.min_px,
              height := r.max_py - r.min_py,
              transform :=
                { ds.transform with
                  a := ds.transform.a + (r.min_px : ℚ) * ds.transform.b +
                    (r.min_py : ℚ) * ds.transform.c,
                  d := ds.transform.d + (r.min_px : ℚ) * ds.transform.e +
                    (r.min_py : ℚ) * ds.transform.f },
              projection := ds.projection } := by
  simp only [split] at hs
  split at hs
  · cases hs
  · rename_i r heq
    split at hs
    · cases hs
    · injection hs with hs1
      injection hs1 with hs2
      exact ⟨r, heq, hs2.symm⟩

/-- C1. Whenever `split` returns a dataset, the conservative reprojected
envelope of the final source-pixel rectangle — computed by the inner-corner
rule with the pixel-to-target-CRS transform taken as a parameter — contains
the window. -/
theorem C1_split_envelope_contains_window (fuel : ℕ) (ds : DatasetG)
    (fw rv : ℚ × ℚ → ℚ × ℚ) (w : CBounds) (out : DatasetG)
    (hs : split fuel ds fw rv w = some (some out)) :
    ∃ r : PixelRect,
      splitLoop (pixelToTarget ds.transform fw) w fuel
        (splitCenterRect ds.transform rv w) = some r ∧
      (conservEnv (pixelToTarget ds.transform fw) r).min_cx ≤ w.min_cx ∧
      (conservEnv (pixelToTarget ds.transform fw) r).max_cx ≥ w.max_cx ∧
      (conservEnv (pixelToTarget ds.transform fw) r).min_cy ≤ w.min_cy ∧
      (conservEnv (pixelToTarget ds.transform fw) r).max_cy ≥ w.max_cy := by
  obtain ⟨r, hloop, -⟩ := split_some fuel ds fw rv w out hs
  have hc := splitLoop_sound (pixelToTarget ds.transform fw) w fuel _ r hloop
  exact ⟨r, hloop, hc.1, hc.2.1, hc.2.2.1, hc.2.2.2⟩

/-- C1 witness: a 10x10 dataset with the identity-like transform
(0, 1, 0, 0, 0, -1), identity CRS transformers, and the unit window
(0, 1, -1, 0); `split` returns a dataset and the final envelope contains the
window. -/
theorem C1_witness :
    ∃ r : PixelRect,
      splitLoop (pixelToTarget ⟨0, 1, 0, 0, 0, -1⟩ (fun q => q)) ⟨0, 1, -1, 0⟩ 8
        (splitCenterRect ⟨0, 1, 0, 0, 0, -1⟩ (fun q => q) ⟨0, 1, -1, 0⟩) = some r ∧
      (conservEnv (pixelToTarget ⟨0, 1, 0, 0, 0, -1⟩ (fun q => q)) r).min_cx ≤
        (⟨0, 1, -1, 0⟩ : CBounds).min_cx ∧
      (conservEnv (pixelToTarget ⟨0, 1, 0, 0, 0, -1⟩ (fun q => q)) r).max_cx ≥
        (⟨0, 1, -1, 0⟩ : CBounds).max_cx ∧
      (conservEnv (pixelToTarget ⟨0, 1, 0, 0, 0, -1⟩ (fun q => q)) r).min_cy ≤
        (⟨0, 1, -1, 0⟩ : CBounds).min_cy ∧
      (conservEnv (pixelToTarget ⟨0, 1, 0, 0, 0, -1⟩ (fun q => q)) r).max_cy ≥
        (⟨0, 1, -1, 0⟩ : CBounds).max_cy :=
  C1_split_envelope_contains_window 8 ⟨10, 10, ⟨0, 1, 0, 0, 0, -1⟩, "P"⟩
    (fun q => q) (fun q => q) ⟨0, 1, -1, 0⟩ ⟨1, 1, ⟨0, 1, 0, 0, 0, -1⟩, "P"⟩
    (by decide)

/-- C7. Whenever `split` returns a dataset, its geo-transform is the
source's with the origin shifted to the final pixel rectangle's
(min_px, min_py) — a' = a + min_px*b + min_py*c, d' = d + min_px*e +
min_py*f — the coefficients b, c, e, f unchanged, the projection the
source's, and the dimensions (max_px - min_px, max_py - min_py). -/
theorem C7_split_output_frame (fuel : ℕ) (ds : DatasetG)
    (fw rv : ℚ × ℚ → ℚ × ℚ) (w : CBounds) (out : DatasetG)
    (hs : split fuel ds fw rv w = some (some out)) :
    ∃ r : PixelRect,
      splitLoop (pixelToTarget ds.transform fw) w fuel
        (splitCenterRect ds.transform rv w) = some r ∧
      out.transform.a = ds.transform.a + (r.min_px : ℚ) * ds.transform.b +
        (r.min_py : ℚ) * ds.transform.c ∧
      out.transform.b = ds.transform.b ∧
      out.transform.c = ds.transform.c ∧
      out.transform.d = ds.transform.d + (r.min_px : ℚ) * ds.transform.e +
        (r.min_py : ℚ) * ds.transform.f ∧
      out.transform.e = ds.transform.e ∧
      out.transform.f = ds.transform.f ∧
      out.projection = ds.projection ∧
      out.width = r.max_px - r.min_px ∧
      out.height = r.max_py - r.min_py := by
  obtain ⟨r, hloop, hout⟩ := split_some fuel ds fw rv w out hs
  subst hout
  exact ⟨r, hloop, rfl, rfl, rfl, rfl, rfl, rfl, rfl, rfl, rfl⟩

/-- C7 witness: the same concrete split as the C1 witness; the output frame
is determined by the final rectangle. -/
theorem C7_witness :
    ∃ r : PixelRect,
      splitLoop (pixelToTarget ⟨0, 1, 0, 0, 0, -1⟩ (fun q => q)) ⟨0, 1, -1, 0⟩ 8
        (splitCenterRect ⟨0, 1, 0, 0, 0, -1⟩ (fun q => q) ⟨0, 1, -1, 0⟩) = some r ∧
      (⟨1, 1, ⟨0, 1, 0, 0, 0, -1⟩, "P"⟩ : DatasetG).transform.a =
        (⟨0, 1, 0, 0, 0, -1⟩ : GeoT).a + (r.min_px : ℚ) * (⟨0, 1, 0, 0, 0, -1⟩ : GeoT).b +
        (r.min_py : ℚ) * (⟨0, 1, 0, 0, 0, -1⟩ : GeoT).c ∧
      (⟨1, 1, ⟨0, 1, 0, 0, 0, -1⟩, "P"⟩ : DatasetG).transform.b = (⟨0, 1, 0, 0, 0, -1⟩ : GeoT).b ∧
      (⟨1, 1, ⟨0, 1, 0, 0, 0, -1⟩, "P"⟩ : DatasetG).transform.c = (⟨0, 1, 0, 0, 0, -1⟩ : GeoT).c ∧
      (⟨1, 1, ⟨0, 1, 0, 0, 0, -1⟩, "P"⟩ : DatasetG).transform.d =
        (⟨0, 1, 0, 0, 0, -1⟩ : GeoT).d + (r.min_px : ℚ) * (⟨0, 1, 0, 0, 0, -1⟩ : GeoT).e +
        (r.min_py : ℚ) * (⟨0, 1, 0, 0, 0, -1⟩ : GeoT).f ∧
      (⟨1, 1, ⟨0, 1, 0, 0, 0, -1⟩, "P"⟩ : DatasetG).transform.e = (⟨0, 1, 0, 0, 0, -1⟩ : GeoT).e ∧
      (⟨1, 1, ⟨0, 1, 0, 0, 0, -1⟩, "P"⟩ : DatasetG).transform.f = (⟨0, 1, 0, 0, 0, -1⟩ : GeoT).f ∧
      (⟨1, 1, ⟨0, 1, 0, 0, 0, -1⟩, "P"⟩ : DatasetG).projection =
        (⟨10, 10, ⟨0, 1, 0, 0, 0, -1⟩, "P"⟩ : DatasetG).projection ∧
      (⟨1, 1, ⟨0, 1, 0, 0, 0, -1⟩, "P"⟩ : DatasetG).width = r.max_px - r.min_px ∧
      (⟨1, 1, ⟨0, 1, 0, 0, 0, -1⟩, "P"⟩ : DatasetG).height = r.max_py - r.min_py :=
  C7_split_output_frame 8 ⟨10, 10, ⟨0, 1, 0, 0, 0, -1⟩, "P"⟩
    (fun q => q) (fun q => q) ⟨0, 1, -1, 0⟩ ⟨1, 1, ⟨0, 1, 0, 0, 0, -1⟩, "P"⟩
    (by decide)

end Satmod

namespace Satmod

/-- A left fold of `min` never exceeds its seed. -/
lemma foldl_min_le_init : ∀ (l : List ℚ) (a : ℚ), l.foldl min a ≤ a := by
  intro l
  induction l with
  | nil => intro a; simp
  | cons x xs ih => intro a; exact le_trans (ih (min a x)) (min_le_left a x)

/-- A left fold of `min` is a lower bound of the list. -/
lemma foldl_min_le_mem : ∀ (l : List ℚ) (a x : ℚ), x ∈ l → l.foldl min a ≤ x := by
  intro l
  induction l with
  | nil => intro a x hx; simp at hx
  | cons y ys ih =>
      intro a x hx
      rcases List.mem_cons.mp hx with rfl | hx
      · exact le_trans (foldl_min_le_init ys (min a x)) (min_le_right a x)
      · exact ih (min a y) x hx

/-- A left fold of `min` is the seed or an element of the list. -/
lemma foldl_min_cases : ∀ (l : List ℚ) (a : ℚ), l.foldl min a = a ∨ l.foldl min a ∈ l := by
  intro l
  induction l with
  | nil => intro a; left; rfl
  | cons x xs ih =>
      intro a
      rcases ih (min a x) with h | h
      · rcases min_choice a x with h2 | h2
        · left; rw [List.foldl_cons, h, h2]
        · right; rw [List.foldl_cons, h, h2]; exact List.mem_cons_self x xs
      · right; exact List.mem_cons_of_mem x h

/-- A left fold of `max` is at least its seed. -/
lemma foldl_max_ge_init : ∀ (l : List ℚ) (a : ℚ), a ≤ l.foldl max a := by
  intro l
  induction l with
  | nil => intro a; simp
  | cons x xs ih => intro a; exact le_trans (le_max_left a x) (ih (max a x))

/-- A left fold of `max` is an upper bound of the list. -/
lemma foldl_max_ge_mem : ∀ (l : List ℚ) (a x : ℚ), x ∈ l → x ≤ l.foldl max a := by
  intro l
  induction l with
  | nil => intro a x hx; simp at hx
  | cons y ys ih =>
      intro a x hx
      rcases List.mem_cons.mp hx with rfl | hx
      · exact le_trans (le_max_right a x) (foldl_max_ge_init ys (max a x))
      · exact ih (max a y) x hx

/-- A left fold of `max` is the seed or an element of the list. -/
lemma foldl_max_cases : ∀ (l : List ℚ) (a : ℚ), l.foldl max a = a ∨ l.foldl max a ∈ l := by
  intro l
  induction l with
  | nil => intro a; left; rfl
  | cons x xs ih =>
      intro a
      rcases ih (max a x) with h | h
      · rcases max_choice a x with h2 | h2
        · left; rw [List.foldl_cons, h, h2]
        · right; rw [List.foldl_cons, h, h2]; exact List.mem_cons_self x xs
      · right; exact List.mem_cons_of_mem x h

/-- The running minimum of `merge`'s loop projects to a fold of `min` over
the envelope x-minima. -/
lemma mergeAcc_min_cx : ∀ (ds : List DatasetG) (acc : CBounds),
    (ds.foldl mergeStep acc).min_cx =
      (ds.map (fun d => (imageEnv d).min_cx)).foldl min acc.min_cx := by
  intro ds
  induction ds with
  | nil => intro acc; rfl
  | cons d dt ih =>
      intro acc
      rw [List.foldl_cons, List.map_cons, List.foldl_cons, ih]
      rfl

/-- The running maximum of `merge`'s loop projects to a fold of `max` over
the envelope y-maxima. -/
lemma mergeAcc_max_cy : ∀ (ds : List DatasetG) (acc : CBounds),
    (ds.foldl mergeStep acc).max_cy =
      (ds.map (fun d => (imageEnv d).max_cy)).foldl max acc.max_cy := by
  intro ds
  induction ds with
  | nil => intro acc; rfl
  | cons d dt ih =>
      intro acc
      rw [List.foldl_cons, List.map_cons, List.foldl_cons, ih]
      rfl

/-- C8. For every non-empty list of datasets sharing a projection and the
geo-transform coefficients (b, c, e, f), `merge` returns a dataset whose
geo-transform keeps those coefficients and whose origin (a', d') is the
upper-left corner of the union bounding box of the inputs' envelopes (each
envelope computed from that input's geo-transform, width and height): a' is
a lower bound of, and attained among, the envelope x-minima, and d' an
upper bound of, and attained among, the envelope y-maxima. The finiteness
hypotheses state that every envelope coordinate is a representable finite
double, so the `f64::MAX` / `f64::MIN` seeds of the loop are inert. -/
theorem C8_merge_union_bounding_box (ds : List DatasetG) (d0 : DatasetG)
    (rest : List DatasetG) (hds : ds = d0 :: rest)
    (hshare : ∀ d ∈ ds, d.transform.b = d0.transform.b ∧
      d.transform.c = d0.transform.c ∧ d.transform.e = d0.transform.e ∧
      d.transform.f = d0.transform.f ∧ d.projection = d0.projection)
    (hfin : ∀ d ∈ ds, (imageEnv d).min_cx ≤ F64_MAX ∧
      -F64_MAX ≤ (imageEnv d).max_cy) :
    ∃ out, merge ds = some out ∧
      (∀ d ∈ ds, out.transform.b = d.transform.b ∧
        out.transform.c = d.transform.c ∧ out.transform.e = d.transform.e ∧
        out.transform.f = d.transform.f) ∧
      (∀ d ∈ ds, out.transform.a ≤ (imageEnv d).min_cx ∧
        (imageEnv d).max_cy ≤ out.transform.d) ∧
      (∃ d ∈ ds, out.transform.a = (imageEnv d).min_cx) ∧
      (∃ d ∈ ds, out.transform.d = (imageEnv d).max_cy) := by
  subst hds
  refine ⟨_, rfl, ?_, ?_, ?_, ?_⟩
  · intro d hd
    obtain ⟨hb, hc, he, hf, -⟩ := hshare d hd
    exact ⟨hb.symm, hc.symm, he.symm, hf.symm⟩
  · intro d hd
    constructor
    · show (mergeAcc (d0 :: rest)).min_cx ≤ _
      rw [mergeAcc, mergeAcc_min_cx]
      exact foldl_min_le_mem _ _ _ (List.mem_map_of_mem _ hd)
    · show _ ≤ (mergeAcc (d0 :: rest)).max_cy
      rw [mergeAcc, mergeAcc_max_cy]
      exact foldl_max_ge_mem _ _ _ (List.mem_map_of_mem _ hd)
  · show ∃ d ∈ d0 :: rest, (mergeAcc (d0 :: rest)).min_cx = (imageEnv d).min_cx
    rw [mergeAcc, mergeAcc_min_cx]
    have hproj : (⟨F64_MAX, -F64_MAX, F64_MAX, -F64_MAX⟩ : CBounds).min_cx = F64_MAX := rfl
    rw [hproj]
    rcases foldl_min_cases ((d0 :: rest).map (fun d => (imageEnv d).min_cx))
        F64_MAX with h | h
    · refine ⟨d0, List.mem_cons_self d0 rest, le_antisymm ?_ ?_⟩
      · exact foldl_min_le_mem _ _ _
          (List.mem_map_of_mem _ (List.mem_cons_self d0 rest))
      · rw [h]; exact (hfin d0 (List.mem_cons_self d0 rest)).1
    · obtain ⟨d, hd, hval⟩ := List.mem_map.mp h
      exact ⟨d, hd, hval.symm⟩
  · show ∃ d ∈ d0 :: rest, (mergeAcc (d0 :: rest)).max_cy = (imageEnv d).max_cy
    rw [mergeAcc, mergeAcc_max_cy]
    have hproj : (⟨F64_MAX, -F64_MAX, F64_MAX, -F64_MAX⟩ : CBounds).max_cy = -F64_MAX := rfl
    rw [hproj]
    rcases foldl_max_cases ((d0 :: rest).map (fun d => (imageEnv d).max_cy))
        (-F64_MAX) with h | h
    · refine ⟨d0, List.mem_cons_self d0 rest, le_antisymm ?_ ?_⟩
      · rw [h]; exact (hfin d0 (List.mem_cons_self d0 rest)).2
      · exact foldl_max_ge_mem _ _ _
          (List.mem_map_of_mem _ (List.mem_cons_self d0 rest))
    · obtain ⟨d, hd, hval⟩ := List.mem_map.mp h
      exact ⟨d, hd, hval.symm⟩

end Satmod

namespace Satmod

/-- C8 witness: two 2x2 datasets sharing pixel size (1, -1) and projection,
offset by (2, -1); the merged origin is the union's upper-left corner. -/
theorem C8_witness :
    ∃ out,
      merge [(⟨2, 2, ⟨0, 1, 0, 0, 0, -1⟩, "P"⟩ : DatasetG),
             ⟨2, 2, ⟨2, 1, 0, -1, 0, -1⟩, "P"⟩] = some out ∧
      (∀ d ∈ [(⟨2, 2, ⟨0, 1, 0, 0, 0, -1⟩, "P"⟩ : DatasetG),
              ⟨2, 2, ⟨2, 1, 0, -1, 0, -1⟩, "P"⟩],
        out.transform.b = d.transform.b ∧ out.transform.c = d.transform.c ∧
        out.transform.e = d.transform.e ∧ out.transform.f = d.transform.f) ∧
      (∀ d ∈ [(⟨2, 2, ⟨0, 1, 0, 0, 0, -1⟩, "P"⟩ : DatasetG),
              ⟨2, 2, ⟨2, 1, 0, -1, 0, -1⟩, "P"⟩],
        out.transform.a ≤ (imageEnv d).min_cx ∧
        (imageEnv d).max_cy ≤ out.transform.d) ∧
      (∃ d ∈ [(⟨2, 2, ⟨0, 1, 0, 0, 0, -1⟩, "P"⟩ : DatasetG),
              ⟨2, 2, ⟨2, 1, 0, -1, 0, -1⟩, "P"⟩],
        out.transform.a = (imageEnv d).min_cx) ∧
      (∃ d ∈ [(⟨2, 2, ⟨0, 1, 0, 0, 0, -1⟩, "P"⟩ : DatasetG),
              ⟨2, 2, ⟨2, 1, 0, -1, 0, -1⟩, "P"⟩],
        out.transform.d = (imageEnv d).max_cy) :=
  C8_merge_union_bounding_box _ _ _ rfl (by decide)
    (by
      intro d hd
      fin_cases hd <;>
        constructor <;>
        · show (_ : ℚ) ≤ _
          norm_num [imageEnv, F64_MAX])

end Satmod

namespace Satmod

/-- The window emitted for index pair (i, j): the tuple built in
src/src/coordinate.rs lines 177-186. -/
def windowOf (xi yi : ℚ) (i j : ℤ) : ℚ × ℚ × ℚ × ℚ :=
  ((i : ℚ) * xi, ((i : ℚ) + 1) * xi, (j : ℚ) * yi, ((j : ℚ) + 1) * yi)

/-- Membership in the i32 range, under which the saturating cast is the
identity. -/
def InI32 (n : ℤ) : Prop := -(2 ^ 31) ≤ n ∧ n ≤ 2 ^ 31 - 1

instance (n : ℤ) : Decidable (InI32 n) := by
  unfold InI32; infer_instance

/-- The saturating cast is the identity on the i32 range. -/
lemma i32clamp_eq_self {n : ℤ} (h : InI32 n) : i32clamp n = n := by
  obtain ⟨h1, h2⟩ := h
  unfold i32clamp
  omega

/-- Characterization of the integer range list. -/
lemma mem_rangeZ {a b c : ℤ} : c ∈ rangeZ a b ↔ a ≤ c ∧ c < b := by
  simp only [rangeZ, List.mem_map, List.mem_range]
  constructor
  · rintro ⟨n, hn, rfl⟩
    omega
  · intro h
    exact ⟨(c - a).toNat, by omega, by omega⟩

/-- The integer range list has no duplicates. -/
lemma nodup_rangeZ (a b : ℤ) : (rangeZ a b).Nodup :=
  (List.nodup_range _).map (fun m n h => by omega)

/-- Membership in `get_windows` is exactly the claimed index grid, with the
saturating casts still in place. -/
lemma mem_get_windows {minx maxx miny maxy xi yi : ℚ} {w : ℚ × ℚ × ℚ × ℚ} :
    w ∈ get_windows minx maxx miny maxy xi yi ↔
      ∃ i j : ℤ,
        (i32clamp ⌊minx / xi⌋ ≤ i ∧ i < i32clamp ⌈maxx / xi⌉) ∧
        (i32clamp ⌊miny / yi⌋ ≤ j ∧ j < i32clamp ⌈maxy / yi⌉) ∧
        w = windowOf xi yi i j := by
  simp only [get_windows, List.mem_flatten, List.mem_map]
  constructor
  · rintro ⟨l, ⟨i, hi, rfl⟩, hw⟩
    obtain ⟨j, hj, rfl⟩ := List.mem_map.mp hw
    exact ⟨i, j, mem_rangeZ.mp hi, mem_rangeZ.mp hj, rfl⟩
  · rintro ⟨i, j, hi, hj, rfl⟩
    exact ⟨_, ⟨i, mem_rangeZ.mpr hi, rfl⟩, List.mem_map.mpr ⟨j, mem_rangeZ.mpr hj, rfl⟩⟩

/-- With positive intervals the emitted window list has no duplicates. -/
lemma nodup_get_windows {minx maxx miny maxy xi yi : ℚ}
    (hx : 0 < xi) (hy : 0 < yi) :
    (get_windows minx maxx miny maxy xi yi).Nodup := by
  rw [get_windows]
  refine List.nodup_flatten.mpr ⟨?_, ?_⟩
  · intro l hl
    obtain ⟨i, hi, rfl⟩ := List.mem_map.mp hl
    refine (nodup_rangeZ _ _).map ?_
    intro j j' hjj
    have h3 := congrArg (fun q : ℚ × ℚ × ℚ × ℚ => q.2.2.1) hjj
    simp only [] at h3
    exact_mod_cast mul_right_cancel₀ (ne_of_gt hy) h3
  · rw [List.pairwise_map]
    refine List.Pairwise.imp ?_ (nodup_rangeZ _ _)
    intro i i' hne w hw hw'
    obtain ⟨j, hj, rfl⟩ := List.mem_map.mp hw
    obtain ⟨j', hj', heq⟩ := List.mem_map.mp hw'
    have h1 := congrArg (fun q : ℚ × ℚ × ℚ × ℚ => q.1) heq
    simp only [] at h1
    have h2 : (i' : ℚ) = (i : ℚ) := mul_right_cancel₀ (ne_of_gt hx) h1
    have h4 : i' = i := by exact_mod_cast h2
    exact hne h4.symm

end Satmod

namespace Satmod

/-- C6 as amended. Whenever the four floor/ceil grid indices lie in the i32
range (so the saturating `as i32` casts of src/src/coordinate.rs lines
163-167 are the identity) and the intervals are positive, `get_windows`
returns exactly one window (i·x_interval, (i+1)·x_interval, j·y_interval,
(j+1)·y_interval) for each integer pair (i, j) of the claimed grid — no
duplicates, and membership is exactly the grid; in particular
`get_windows 0 3 0 3 1 1` is exactly the nine unit squares with integer
corners. -/
theorem C6_get_windows_grid :
    (∀ (minx maxx miny maxy xi yi : ℚ), 0 < xi → 0 < yi →
      InI32 ⌊minx / xi⌋ → InI32 ⌈maxx / xi⌉ →
      InI32 ⌊miny / yi⌋ → InI32 ⌈maxy / yi⌉ →
      ((get_windows minx maxx miny maxy xi yi).Nodup ∧
        ∀ w, w ∈ get_windows minx maxx miny maxy xi yi ↔
          ∃ i j : ℤ, (⌊minx / xi⌋ ≤ i ∧ i < ⌈maxx / xi⌉) ∧
            (⌊miny / yi⌋ ≤ j ∧ j < ⌈maxy / yi⌉) ∧ w = windowOf xi yi i j)) ∧
    get_windows 0 3 0 3 1 1 =
      [(0, 1, 0, 1), (0, 1, 1, 2), (0, 1, 2, 3),
       (1, 2, 0, 1), (1, 2, 1, 2), (1, 2, 2, 3),
       (2, 3, 0, 1), (2, 3, 1, 2), (2, 3, 2, 3)] := by
  constructor
  · intro minx maxx miny maxy xi yi hx hy h1 h2 h3 h4
    refine ⟨nodup_get_windows hx hy, fun w => ?_⟩
    rw [mem_get_windows, i32clamp_eq_self h1, i32clamp_eq_self h2,
      i32clamp_eq_self h3, i32clamp_eq_self h4]
  · decide

/-- C6 counterexample: for bounds starting at -2^40 with unit intervals, the
index pair (-2^40, 0) lies in the claimed grid and the intervals are
positive, yet its window is not returned — the `as i32` cast saturates both
x indices to -2^31, leaving an empty x range. -/
theorem C6_counterexample :
    windowOf 1 1 (-(2 ^ 40)) 0 ∉ get_windows (-(2 ^ 40)) (-(2 ^ 40) + 1) 0 1 1 1 ∧
    ⌊(-(2 ^ 40) : ℚ) / 1⌋ ≤ -(2 ^ 40) ∧
    (-(2 ^ 40) : ℤ) < ⌈((-(2 ^ 40) : ℚ) + 1) / 1⌉ ∧
    ⌊(0 : ℚ) / 1⌋ ≤ 0 ∧ (0 : ℤ) < ⌈(1 : ℚ) / 1⌉ ∧
    (0 : ℚ) < 1 ∧ (0 : ℚ) < 1 := by
  decide

/-- C6 witness: the nine-unit-square instance satisfies the in-range side
conditions. -/
theorem C6_witness :
    (get_windows 0 3 0 3 1 1).Nodup ∧
    ∀ w, w ∈ get_windows 0 3 0 3 1 1 ↔
      ∃ i j : ℤ, (⌊(0 : ℚ) / 1⌋ ≤ i ∧ i < ⌈(3 : ℚ) / 1⌉) ∧
        (⌊(0 : ℚ) / 1⌋ ≤ j ∧ j < ⌈(3 : ℚ) / 1⌉) ∧ w = windowOf 1 1 i j :=
  C6_get_windows_grid.1 0 3 0 3 1 1 (by norm_num) (by norm_num)
    (by decide) (by decide) (by decide) (by decide)

end Satmod

namespace Satmod

/-- The one-byte encoding agrees with the raw `u8` buffer write. -/
lemma beBytes_one (n : ℕ) : beBytes 1 n = [n % 256] := by
  simp [beBytes, List.range_succ]

/-- The two-byte encoding is the big-endian `u16` write. -/
lemma beBytes_two (n : ℕ) : beBytes 2 n = u16be n := by
  simp [beBytes, u16be, List.range_succ]

/-- The four-byte encoding is the big-endian `u32` write. -/
lemma beBytes_four (n : ℕ) : beBytes 4 n = u32be n := by
  simp [beBytes, u32be, List.range_succ]

/-- Flattening one-byte encodings is the plain `u8` buffer write. -/
lemma flatten_map_beBytes_one (l : List ℕ) :
    (l.map (beBytes 1)).flatten = l.map (· % 256) := by
  induction l with
  | nil => rfl
  | cons x xs ih => simp [ih, beBytes_one]

/-- Flattening two-byte encodings is the per-pixel `u16` write. -/
lemma flatten_map_beBytes_two (l : List ℕ) :
    (l.map (beBytes 2)).flatten = (l.map u16be).flatten := by
  induction l with
  | nil => rfl
  | cons x xs ih => simp [ih, beBytes_two]

/-- Flattening four-byte encodings is the per-pixel `u32` write. -/
lemma flatten_map_beBytes_four (l : List ℕ) :
    (l.map (beBytes 4)).flatten = (l.map u32be).flatten := by
  induction l with
  | nil => rfl
  | cons x xs ih => simp [ih, beBytes_four]

/-- On a supported band, `write_raster` emits the tag then the spec-side
pixel payload. -/
lemma write_raster_eq (b : SBand) (hb : supportedTag b.band_type) :
    write_raster b = some (u32be b.band_type ++ pixelBytes b) := by
  rcases hb with h | h | h | h
  · rw [write_raster, if_pos h, pixelBytes, h]
    rw [show typeWidth GDT_Byte = 1 from rfl, flatten_map_beBytes_one]
  · rw [write_raster, if_neg (by rw [h]; decide), if_pos h, pixelBytes, h]
    rw [show typeWidth GDT_Int16 = 2 from rfl, flatten_map_beBytes_two]
  · rw [write_raster, if_neg (by rw [h]; decide), if_neg (by rw [h]; decide),
      if_pos h, pixelBytes, h]
    rw [show typeWidth GDT_UInt16 = 2 from rfl, flatten_map_beBytes_two]
  · rw [write_raster, if_neg (by rw [h]; decide), if_neg (by rw [h]; decide),
      if_neg (by rw [h]; decide), if_pos h, pixelBytes, h]
    rw [show typeWidth GDT_Float32 = 4 from rfl, flatten_map_beBytes_four]

/-- The band loop of `write` appends every band's bytes in order. -/
lemma write_bands_foldlM (bs : List SBand) (hs : ∀ b ∈ bs, supportedTag b.band_type) :
    ∀ acc : List ℕ,
      bs.foldlM (fun acc b => (write_raster b).map (acc ++ ·)) acc =
        some (acc ++ (bs.map (fun b => u32be b.band_type ++ pixelBytes b)).flatten) := by
  induction bs with
  | nil => intro acc; simp
  | cons b bt ih =>
      intro acc
      rw [List.foldlM_cons, write_raster_eq b (hs b (List.mem_cons_self b bt))]
      show List.foldlM _ (acc ++ (u32be b.band_type ++ pixelBytes b)) bt = _
      rw [ih (fun d hd => hs d (List.mem_cons_of_mem b hd))]
      simp [List.append_assoc]

/-- Each pixel's encoding has exactly the type's width. -/
lemma beBytes_length (w n : ℕ) : (beBytes w n).length = w := by
  simp [beBytes]

/-- The spec-side pixel payload has width·height·size bytes when the band
holds width·height pixels. -/
lemma pixelBytes_length (b : SBand) :
    (pixelBytes b).length = b.data.length * typeWidth b.band_type := by
  rw [pixelBytes]
  induction b.data with
  | nil => simp
  | cons x xs ih =>
      simp only [List.map_cons, List.flatten_cons, List.length_append, ih,
        beBytes_length, List.length_cons]
      ring

end Satmod

namespace Satmod

/-- C9. For every dataset with at least one band, all bands of supported
pixel type and holding width·height pixels, `serialize::write` emits exactly
the claimed byte sequence: big-endian u32 width and height, six big-endian
f64 geo-transform coefficients, u32 projection byte length then the
projection bytes, band 1's u32 pixel-type tag, a u8 no-data flag followed by
a big-endian f64 no-data value only when present, the u8 band count, and per
band a u32 pixel-type tag followed by the pixels in big-endian at the
type's natural width (1 byte U8, 2 bytes I16/U16, 4 bytes F32). -/
theorem C9_serialize_write_layout (d : SDataset) (b1 : SBand) (rest : List SBand)
    (hb : d.bands = b1 :: rest)
    (htr : d.transform.length = 6)
    (hsupp : ∀ b ∈ d.bands, supportedTag b.band_type)
    (hlen : ∀ b ∈ d.bands, b.data.length = d.width * d.height) :
    write d = some (
      u32be (d.width % 2 ^ 32) ++ u32be (d.height % 2 ^ 32) ++
      (d.transform.map u64be).flatten ++
      u32be (d.projection.length % 2 ^ 32) ++ d.projection ++
      u32be b1.band_type ++
      (match b1.no_data_value with
       | some v => 1 :: u64be v
       | none => [0]) ++
      [d.bands.length % 256] ++
      (d.bands.map (fun b => u32be b.band_type ++ pixelBytes b)).flatten) ∧
    ((d.transform.map u64be).flatten).length = 48 ∧
    ∀ b ∈ d.bands,
      (pixelBytes b).length = d.width * d.height * typeWidth b.band_type ∧
      0 < typeWidth b.band_type := by
  refine ⟨?_, ?_, ?_⟩
  · have hw : write d = List.foldlM (fun acc b => (write_raster b).map (acc ++ ·))
        (u32be (d.width % 2 ^ 32) ++ u32be (d.height % 2 ^ 32) ++
         (d.transform.map u64be).flatten ++
         u32be (d.projection.length % 2 ^ 32) ++ d.projection ++
         u32be b1.band_type ++
         (match b1.no_data_value with
          | some v => 1 :: u64be v
          | none => [0]) ++
         [(b1 :: rest).length % 256]) (b1 :: rest) := by
      rw [write, hb]
    rw [hw, write_bands_foldlM (b1 :: rest) (hb ▸ hsupp)]
    rw [← hb]
  · have : (d.transform.map u64be).flatten.length =
        (d.transform.map u64be).flatten.length := rfl
    calc (d.transform.map u64be).flatten.length
        = (d.transform.map (fun t => (u64be t).length)).sum := by
          rw [List.length_flatten, List.map_map]; rfl
      _ = (d.transform.map (fun _ => 8)).sum := by
          congr 1
      _ = d.transform.length * 8 := by
          rw [List.map_const', List.sum_replicate, smul_eq_mul]
      _ = 48 := by rw [htr]
  · intro b hbm
    refine ⟨?_, ?_⟩
    · rw [pixelBytes_length, hlen b hbm]
    · rcases hsupp b hbm with h | h | h | h <;> rw [h] <;> decide

end Satmod

namespace Satmod

/-- C9 witness: a 2x1 single-band byte dataset with zero transform patterns
and a one-byte projection serializes to exactly the claimed layout. -/
theorem C9_witness :
    write ⟨2, 1, [0, 0, 0, 0, 0, 0], [80], [⟨GDT_Byte, none, [7, 8]⟩]⟩ = some (
      u32be (2 % 2 ^ 32) ++ u32be (1 % 2 ^ 32) ++
      (([0, 0, 0, 0, 0, 0] : List ℕ).map u64be).flatten ++
      u32be (([80] : List ℕ).length % 2 ^ 32) ++ [80] ++
      u32be GDT_Byte ++ [0] ++
      [([⟨GDT_Byte, none, [7, 8]⟩] : List SBand).length % 256] ++
      (([⟨GDT_Byte, none, [7, 8]⟩] : List SBand).map
        (fun b => u32be b.band_type ++ pixelBytes b)).flatten) ∧
    ((([0, 0, 0, 0, 0, 0] : List ℕ).map u64be).flatten).length = 48 ∧
    ∀ b ∈ ([⟨GDT_Byte, none, [7, 8]⟩] : List SBand),
      (pixelBytes b).length = 2 * 1 * typeWidth b.band_type ∧
      0 < typeWidth b.band_type :=
  C9_serialize_write_layout ⟨2, 1, [0, 0, 0, 0, 0, 0], [80], [⟨GDT_Byte, none, [7, 8]⟩]⟩
    ⟨GDT_Byte, none, [7, 8]⟩ [] rfl rfl (by decide) (by decide)

end Satmod

namespace Satmod

/-- The top bit of `bitN * 2^k + r` with `r < 2^k` is `bitN`. -/
lemma testBit_top (bitN r k : ℕ) (hb : bitN ≤ 1) (hr : r < 2 ^ k) :
    (bitN * 2 ^ k + r).testBit k = decide (bitN = 1) := by
  rw [Nat.testBit_to_div_mod]
  have hpos : 0 < 2 ^ k := Nat.pos_pow_of_pos k (by norm_num)
  have h1 : (bitN * 2 ^ k + r) / 2 ^ k = bitN := by
    rw [Nat.add_comm, Nat.mul_comm, Nat.add_mul_div_left _ _ hpos,
      Nat.div_eq_of_lt hr, Nat.zero_add]
  rw [h1, Nat.mod_eq_of_lt (by omega)]

/-- The low bits of `bitN * 2^k + r` are those of `r`. -/
lemma testBit_low (bitN r k j : ℕ) (hj : j < k) :
    (bitN * 2 ^ k + r).testBit j = r.testBit j := by
  rw [Nat.testBit_to_div_mod, Nat.testBit_to_div_mod]
  have hpos : 0 < 2 ^ j := Nat.pos_pow_of_pos j (by norm_num)
  have hk : 2 ^ k = 2 ^ j * 2 ^ (k - j) := by
    rw [← Nat.pow_add]
    congr 1
    omega
  have h1 : bitN * 2 ^ k + r = r + 2 ^ j * (2 ^ (k - j) * bitN) := by
    rw [hk]; ring
  rw [h1, Nat.add_mul_div_left _ _ hpos]
  have h2 : 2 ^ (k - j) = 2 * 2 ^ (k - j - 1) := by
    rw [← Nat.pow_succ']
    congr 1
    omega
  rw [h2, mul_assoc]
  have h3 : (r / 2 ^ j + 2 * (2 ^ (k - j - 1) * bitN)) % 2 = r / 2 ^ j % 2 := by
    omega
  rw [h3]

/-- Decoding only inspects the low `k` bits of the index. -/
lemma decodeBitsAux_congr :
    ∀ (k t : ℕ) (b : GBounds) (h h' : ℕ),
      (∀ j, j < k → h.testBit j = h'.testBit j) →
      decodeBitsAux h k t b = decodeBitsAux h' k t b := by
  intro k
  induction k with
  | zero => intros; rfl
  | succ k ih =>
      intro t b h h' hagree
      simp only [decodeBitsAux]
      rw [hagree k (by omega)]
      exact ih (t + 1) _ h h' (fun j hj => hagree j (by omega))

/-- Replaying one character's index bits reproduces the encoder's bounds
state: decoding is a left inverse of the per-character bisection. -/
lemma decode_encodeBits (x y : ℚ) :
    ∀ (k t : ℕ) (b : GBounds),
      decodeBitsAux (encodeBits x y k t 0 b).1 k t b = (encodeBits x y k t 0 b).2 := by
  intro k
  induction k with
  | zero => intros; rfl
  | succ k ih =>
      intro t b
      simp only [encodeBits]
      rw [encodeBits_acc]
      simp only []
      have hr := encodeBits_fst_lt x y k (t + 1)
        (applySplit (decide (t % 2 = 1)) (splitBit x y (decide (t % 2 = 1)) b) b)
      simp only [decodeBitsAux]
      have htop : ((2 * 0 + if splitBit x y (decide (t % 2 = 1)) b then 1 else 0) * 2 ^ k +
          (encodeBits x y k (t + 1) 0
            (applySplit (decide (t % 2 = 1)) (splitBit x y (decide (t % 2 = 1)) b) b)).1).testBit k
          = splitBit x y (decide (t % 2 = 1)) b := by
        rw [testBit_top _ _ _ (by split <;> omega) hr]
        cases hsb : splitBit x y (decide (t % 2 = 1)) b <;> simp
      rw [htop]
      rw [decodeBitsAux_congr k (t + 1) _ _
        (encodeBits x y k (t + 1) 0
          (applySplit (decide (t % 2 = 1)) (splitBit x y (decide (t % 2 = 1)) b) b)).1
        (fun j hj => testBit_low _ _ _ _ hj)]
      exact ih (t + 1) (applySplit (decide (t % 2 = 1)) (splitBit x y (decide (t % 2 = 1)) b) b)

end Satmod

namespace Satmod

/-- Each bisection step keeps the encoded point inside the closed bounds. -/
lemma inBox_applySplit (x y : ℚ) (parity : Bool) (b : GBounds)
    (hin : InBox x y b) :
    InBox x y (applySplit parity (splitBit x y parity b) b) := by
  obtain ⟨h1, h2, h3, h4⟩ := hin
  cases parity with
  | false =>
      by_cases hx : x > (b.max_x + b.min_x) / 2
      · have hbit : splitBit x y false b = true := by simp [splitBit, hx]
        rw [hbit]
        exact ⟨le_of_lt hx, h2, h3, h4⟩
      · have hbit : splitBit x y false b = false := by simp [splitBit, hx]
        rw [hbit]
        exact ⟨h1, not_lt.mp hx, h3, h4⟩
  | true =>
      by_cases hy : y > (b.max_y + b.min_y) / 2
      · have hbit : splitBit x y true b = true := by simp [splitBit, hy]
        rw [hbit]
        exact ⟨h1, h2, le_of_lt hy, h4⟩
      · have hbit : splitBit x y true b = false := by simp [splitBit, hy]
        rw [hbit]
        exact ⟨h1, h2, h3, not_lt.mp hy⟩

/-- The inner bit loop keeps the point inside the bounds. -/
lemma inBox_encodeBits (x y : ℚ) :
    ∀ (k t h : ℕ) (b : GBounds), InBox x y b →
      InBox x y (encodeBits x y k t h b).2 := by
  intro k
  induction k with
  | zero => intro t h b hin; exact hin
  | succ k ih =>
      intro t h b hin
      simp only [encodeBits]
      exact ih (t + 1) _ _ (inBox_applySplit x y (decide (t % 2 = 1)) b hin)

/-- The character loop keeps the point inside the bounds. -/
lemma inBox_encodeIndices (x y : ℚ) (cb : ℕ) :
    ∀ (p t : ℕ) (b : GBounds), InBox x y b →
      InBox x y (encodeIndices x y cb p t b).2 := by
  intro p
  induction p with
  | zero => intro t b hin; exact hin
  | succ p ih =>
      intro t b hin
      simp only [encodeIndices]
      exact ih (t + cb) _ (inBox_encodeBits x y cb t 0 b hin)

/-- In a duplicate-free alphabet, the index of the i-th character is i. -/
lemma charIndex_get :
    ∀ (l : List Char), l.Nodup → ∀ (i : ℕ) (hi : i < l.length),
      charIndex (l.get ⟨i, hi⟩) l = some i := by
  intro l
  induction l with
  | nil => intro _ i hi; simp at hi
  | cons c cs ih =>
      intro hnd i hi
      cases i with
      | zero => simp [charIndex]
      | succ j =>
          have hj : j < cs.length := by simpa using hi
          have hget : (c :: cs).get ⟨j + 1, hi⟩ = cs.get ⟨j, hj⟩ := rfl
          have hc : ¬(c = cs.get ⟨j, hj⟩) := by
            intro hceq
            exact (List.nodup_cons.mp hnd).1 (hceq ▸ cs.get_mem j hj)
          rw [hget, charIndex, if_neg hc, ih (List.nodup_cons.mp hnd).2 j hj]
          rfl

/-- Decoding the encoder's character stream replays the encoder's bounds
trajectory character by character. -/
lemma decodeChars_roundtrip (x y : ℚ) (cb : ℕ) (codes : List Char)
    (hlen : codes.length = 2 ^ cb) (hnd : codes.Nodup) :
    ∀ (p t : ℕ) (b : GBounds),
      decodeChars cb codes
        (((encodeIndices x y cb p t b).1).map (fun h => codes.getD h ' ')) t b =
      some (encodeIndices x y cb p t b).2 := by
  intro p
  induction p with
  | zero => intros; rfl
  | succ p ih =>
      intro t b
      simp only [encodeIndices, List.map_cons]
      have hh : (encodeBits x y cb t 0 b).1 < codes.length := by
        rw [hlen]; exact encodeBits_fst_lt x y cb t b
      rw [decodeChars, List.getD_eq_getElem codes ' ' hh]
      have hgg : codes[(encodeBits x y cb t 0 b).1] =
          codes.get ⟨(encodeBits x y cb t 0 b).1, hh⟩ := rfl
      rw [hgg, charIndex_get codes hnd _ hh]
      simp only []
      rw [decode_encodeBits x y cb t b]
      exact ih (t + cb) (encodeBits x y cb t 0 b).2

end Satmod

namespace Satmod

/-- C2. For every geocode variant, precision p ≥ 1 and point strictly
interior to the native bounds, decode(encode(x, y, p)) succeeds and returns
cell bounds containing the point. The decoder is modelled from the spec
(the source's `decode` is an unimplemented stub). -/
theorem C2_encode_decode_roundtrip (g : Geocode) (p : ℕ) (hp : 1 ≤ p) (x y : ℚ)
    (hx1 : g.gbounds.min_x < x) (hx2 : x < g.gbounds.max_x)
    (hy1 : g.gbounds.min_y < y) (hy2 : y < g.gbounds.max_y) :
    ∃ (s : String) (mnx mxx mny mxy : ℚ),
      g.encode x y p = .ok s ∧
      g.decode s = .ok (mnx, mxx, mny, mxy) ∧
      mnx ≤ x ∧ x ≤ mxx ∧ mny ≤ y ∧ y ≤ mxy := by
  have hin : InBox x y g.gbounds :=
    ⟨le_of_lt hx1, le_of_lt hx2, le_of_lt hy1, le_of_lt hy2⟩
  have hnotout : ¬(x < g.gbounds.min_x ∨ x > g.gbounds.max_x ∨
      y < g.gbounds.min_y ∨ y > g.gbounds.max_y) := by
    rintro (h | h | h | h) <;> [exact absurd hin.1 (not_le.mpr h);
      exact absurd hin.2.1 (not_le.mpr h);
      exact absurd hin.2.2.1 (not_le.mpr h);
      exact absurd hin.2.2.2 (not_le.mpr h)]
  have hlen : (g.codes).length = 2 ^ g.char_bits := by cases g <;> decide
  have hnd : (g.codes).Nodup := by cases g <;> decide
  have hD := decodeChars_roundtrip x y g.char_bits g.codes hlen hnd p 0 g.gbounds
  have hfin := inBox_encodeIndices x y g.char_bits p 0 g.gbounds hin
  refine ⟨String.mk (((encodeIndices x y g.char_bits p 0 g.gbounds).1).map
      (fun h => g.codes.getD h ' ')),
    (encodeIndices x y g.char_bits p 0 g.gbounds).2.min_x,
    (encodeIndices x y g.char_bits p 0 g.gbounds).2.max_x,
    (encodeIndices x y g.char_bits p 0 g.gbounds).2.min_y,
    (encodeIndices x y g.char_bits p 0 g.gbounds).2.max_y,
    ?_, ?_, hfin.1, hfin.2.1, hfin.2.2.1, hfin.2.2.2⟩
  · simp [Geocode.encode, hnotout]
  · have hD2 : decodeChars g.char_bits g.codes
        (String.mk (((encodeIndices x y g.char_bits p 0 g.gbounds).1).map
          (fun h => g.codes.getD h ' '))).data 0 g.gbounds =
        some (encodeIndices x y g.char_bits p 0 g.gbounds).2 := hD
    rw [Geocode.decode, hD2]

/-- C2 witness: geohash at precision 1 on the interior point (10, 53). -/
theorem C2_witness :
    ∃ (s : String) (mnx mxx mny mxy : ℚ),
      Geocode.Geohash.encode 10 53 1 = .ok s ∧
      Geocode.Geohash.decode s = .ok (mnx, mxx, mny, mxy) ∧
      mnx ≤ 10 ∧ (10 : ℚ) ≤ mxx ∧ mny ≤ 53 ∧ (53 : ℚ) ≤ mxy :=
  C2_encode_decode_roundtrip Geocode.Geohash 1 (by norm_num) 10 53
    (by decide) (by decide) (by decide) (by decide)

end Satmod
